import Mathlib

/-!
Verification of the data-treatment-interpreter pipeline: tokenizer
(internal/lexer, line-based snapshot), parser (internal/parser/parser.go),
program model, execution engine (internal/engine, iteration-mode snapshot)
and the built-in transformers (internal/transformers).

Strings from the Go source are embedded as `List Char`; a Go `[]byte` JSON
document is embedded as the parsed `Value` tree it denotes.  The document
store (tidwall/gjson and tidwall/sjson) is an external collaborator of the
repository; per the spec it is used only through `get`, `set` and `delete`
over dot-separated paths that traverse objects and numeric array indices,
and it is modelled here at exactly that interface.
-/

namespace DTI

/-- Shorthand: the character list of a string literal. -/
def cs (s : String) : List Char := s.toList

/-! ## JSON values and the document-store interface -/

/-- A JSON value: the `Value` tagged union of the spec's data model
(string, number, boolean, array, object, plus JSON null).  Numbers are
embedded as rationals; no claim in this development stringifies or
computes with a non-integral number. -/
inductive Value where
  | null : Value
  | str : List Char → Value
  | num : Rat → Value
  | bool : Bool → Value
  | arr : List Value → Value
  | obj : List (List Char × Value) → Value

/-- Split a character list at every occurrence of one separator character
(the `strings.Split(s, sep)` of a one-character separator). -/
def splitOnChar (sep : Char) : List Char → List (List Char)
  | [] => [[]]
  | c :: rest =>
    match splitOnChar sep rest with
    | [] => [[c]]
    | s :: ss => if c = sep then [] :: s :: ss else (c :: s) :: ss

/-- A dot-separated path split into its segments. -/
def splitDot : List Char → List (List Char) := splitOnChar '.'

/-- A path segment read as a decimal array index (gjson/sjson accept a run
of digits as an index into an array). -/
def segIndex (s : List Char) : Option Nat :=
  if s ≠ [] ∧ s.all Char.isDigit then
    some (s.foldl (fun a c => a * 10 + (c.toNat - 48)) 0)
  else none

/-- Key lookup in an object's field list. -/
def lookupField (fields : List (List Char × Value)) (k : List Char) : Option Value :=
  match fields with
  | [] => none
  | (k', v) :: rest => if k' = k then some v else lookupField rest k

/-- One step of path resolution. -/
def getSeg (v : Value) (s : List Char) : Option Value :=
  match v with
  | .obj fields => lookupField fields s
  | .arr xs =>
    match segIndex s with
    | some i => xs.get? i
    | none => none
  | _ => none

/-- Modelled from the spec: the document collaborator's
`get(document, path) -> Value | absent` — resolve a dot-separated path
through objects and numeric array indices. -/
def getPath (v : Value) : List (List Char) → Option Value
  | [] => some v
  | s :: rest =>
    match getSeg v s with
    | some w => getPath w rest
    | none => none

/-- `get` on an unsplit dot-separated path. -/
def Value.get (v : Value) (p : List Char) : Option Value :=
  getPath v (splitDot p)

/-- A fresh nested object carrying `x` at the end of the remaining path
(what the store builds below a missing or non-container parent). -/
def mkPath : List (List Char) → Value → Value
  | [], x => x
  | s :: rest, x => .obj [(s, mkPath rest x)]

/-- Replace the value stored under an existing key. -/
def replaceField (fields : List (List Char × Value)) (k : List Char) (x : Value) :
    List (List Char × Value) :=
  fields.map fun kv => if kv.1 = k then (k, x) else kv

/-- Write `x` at array position `i`, padding with nulls past the end. -/
def setAt (xs : List Value) (i : Nat) (x : Value) : List Value :=
  if i < xs.length then xs.set i x
  else xs ++ List.replicate (i - xs.length) Value.null ++ [x]

/-- Modelled from the spec: the document collaborator's
`set(document, path, value) -> document` — write through objects and
numeric array indices, creating missing intermediate objects. -/
def setPath (v : Value) (ss : List (List Char)) (x : Value) : Value :=
  match ss with
  | [] => x
  | s :: rest =>
    match v with
    | .obj fields =>
      match lookupField fields s with
      | some w => .obj (replaceField fields s (setPath w rest x))
      | none => .obj (fields ++ [(s, mkPath rest x)])
    | .arr xs =>
      match segIndex s with
      | some i => .arr (setAt xs i (setPath ((xs.get? i).getD .null) rest x))
      | none => mkPath (s :: rest) x
    | _ => mkPath (s :: rest) x

/-- `set` on an unsplit dot-separated path. -/
def Value.set (v : Value) (p : List Char) (x : Value) : Value :=
  setPath v (splitDot p) x

/-- Modelled from the spec: the document collaborator's
`delete(document, path) -> document` — remove the addressed field (all
bindings of the leaf key), leaving the document unchanged when the path
does not resolve. -/
def deletePath (v : Value) (ss : List (List Char)) : Value :=
  match ss with
  | [] => v
  | [s] =>
    match v with
    | .obj fields => .obj (fields.filter fun kv => kv.1 ≠ s)
    | .arr xs =>
      match segIndex s with
      | some i => .arr (xs.take i ++ xs.drop (i + 1))
      | none => .arr xs
    | w => w
  | s :: rest =>
    match v with
    | .obj fields =>
      match lookupField fields s with
      | some w => .obj (replaceField fields s (deletePath w rest))
      | none => .obj fields
    | .arr xs =>
      match segIndex s with
      | some i =>
        match xs.get? i with
        | some w => .arr (xs.set i (deletePath w rest))
        | none => .arr xs
      | none => .arr xs
    | w => w

/-- `delete` on an unsplit dot-separated path. -/
def Value.delete (v : Value) (p : List Char) : Value :=
  deletePath v (splitDot p)

/-! ## Character and string helpers shared by the pipeline -/

/-- The decimal digit character for `k ≤ 9` (used by `strconv.Itoa` and the
error formatter's `%d`). -/
def digitChar (k : Nat) : Char :=
  if k = 0 then '0' else if k = 1 then '1' else if k = 2 then '2'
  else if k = 3 then '3' else if k = 4 then '4' else if k = 5 then '5'
  else if k = 6 then '6' else if k = 7 then '7' else if k = 8 then '8' else '9'

/-- Fuel-driven accumulator for decimal rendering. -/
def natCharsGo : Nat → Nat → List Char → List Char
  | 0, _, acc => acc
  | fuel + 1, n, acc =>
    if n < 10 then digitChar n :: acc
    else natCharsGo fuel (n / 10) (digitChar (n % 10) :: acc)

/-- Decimal rendering of a natural number (`strconv.Itoa`, `%d`). -/
def natChars (n : Nat) : List Char := natCharsGo (n + 1) n []

/-- Decimal rendering of an integer. -/
def intChars (i : Int) : List Char :=
  if i < 0 then '-' :: natChars i.natAbs else natChars i.natAbs

/-- Rendering of a number as `gjson.Result.String()` renders it.  Only the
integral case is ever exercised by a claim; a non-integral rational is
rendered as numerator/denominator (gjson's shortest-float formatting is
not modelled, and no claim stringifies a non-integral number). -/
def numRepr (q : Rat) : List Char :=
  if q.den = 1 then intChars q.num
  else intChars q.num ++ '/' :: natChars q.den

/-- `gjson.Result.String()`: the string form of a resolved value.  Composite
values are rendered by gjson as their raw JSON text; that case is unused by
every claim and carried here as a placeholder token. -/
def Value.stringRepr : Value → List Char
  | .null => []
  | .str s => s
  | .num q => numRepr q
  | .bool true => cs "true"
  | .bool false => cs "false"
  | .arr _ => cs "[array]"
  | .obj _ => cs "[object]"

/-- `strings.ToUpper`, restricted to ASCII (`Char.toUpper`); every string a
claim uppercases is ASCII. -/
def toUpperChars (s : List Char) : List Char := s.map Char.toUpper

/-- `strings.Trim(s, "'")`: strip every leading and trailing apostrophe. -/
def trimQuotes (s : List Char) : List Char :=
  ((s.dropWhile fun c => c = '\'').reverse.dropWhile fun c => c = '\'').reverse

/-- Index of the first occurrence of `sep` in `s` (`strings.Index`). -/
def findSub (sep : List Char) : List Char → Option Nat
  | [] => if sep = [] then some 0 else none
  | c :: rest =>
    if sep.isPrefixOf (c :: rest) then some 0
    else (findSub sep rest).map (· + 1)

/-- Fuel-driven splitting of `s` at each occurrence of a non-empty `sep`. -/
def splitSubGo (sep : List Char) : Nat → List Char → List (List Char)
  | 0, s => [s]
  | fuel + 1, s =>
    match findSub sep s with
    | none => [s]
    | some k => s.take k :: splitSubGo sep fuel (s.drop (k + sep.length))

/-- `strings.Split(s, sep)`: with an empty separator Go splits into single
characters, otherwise at each occurrence of `sep`. -/
def splitSub (s sep : List Char) : List (List Char) :=
  if sep = [] then s.map fun c => [c]
  else splitSubGo sep (s.length + 1) s

/-! ## Transformers (internal/transformers) -/

/-- `transformers.Results`: one transformer invocation's ordered output. -/
abbrev Results := List Value

/-- `transformers.Config`: the argument tokens and the live document. -/
structure Config where
  args : List (List Char)
  json : Value

/-- Error messages are plain strings. -/
abbrev Err := List Char

/-- The `argument '%s' not found in JSON` message of text.go. -/
def argNotFoundMsg (a : List Char) : Err :=
  cs "argument '" ++ a ++ cs "' not found in JSON"

/-- `Uppercase.Transform`: exactly one argument, always resolved as a field
path; uppercases its string form. -/
def uppercaseTransform (t : Config) : Except Err Results :=
  match t.args with
  | [argument] =>
    match t.json.get argument with
    | some value => .ok [.str (toUpperChars value.stringRepr)]
    | none => .error (argNotFoundMsg argument)
  | _ => .error (cs "uppercase requires exactly one argument")

/-- Resolve a run of field-path arguments in order, failing on the first
missing field (the `for _, arg := range t.Args[1:]` loop of
`Concatenate.Transform`). -/
def resolveFields (doc : Value) : List (List Char) → Except Err (List (List Char))
  | [] => .ok []
  | arg :: rest =>
    match doc.get arg with
    | none => .error (argNotFoundMsg arg)
    | some value =>
      match resolveFields doc rest with
      | .ok vs => .ok (value.stringRepr :: vs)
      | .error e => .error e

/-- `Concatenate.Transform`: at least three arguments; the first is the
separator literal (quotes trimmed), the rest are field paths. -/
def concatenateTransform (t : Config) : Except Err Results :=
  match t.args with
  | sep :: f1 :: f2 :: fs =>
    match resolveFields t.json (f1 :: f2 :: fs) with
    | .ok values => .ok [.str (List.intercalate (trimQuotes sep) values)]
    | .error e => .error e
  | _ => .error (cs "concatenate requires at least three arguments")

/-- `Split.Transform`: a field path and a separator literal; one result per
split segment. -/
def splitTransform (t : Config) : Except Err Results :=
  match t.args with
  | [field, separator] =>
    match t.json.get field with
    | some value =>
      .ok ((splitSub value.stringRepr (trimQuotes separator)).map fun seg => .str seg)
    | none => .error (argNotFoundMsg field)
  | _ => .error (cs "split requires exactly two arguments")

/-- `math.Round(x*10)/10` with exact rational arithmetic standing in for
float64 (the BMI numerics are outside every claim). -/
def roundTenth (x : Rat) : Rat := ((⌊x * 10 + 1 / 2⌋ : Int) : Rat) / 10

/-- `BMI.Transform`: two numeric field paths; returns the rounded BMI and a
healthy-range flag. -/
def bmiTransform (t : Config) : Except Err Results :=
  match t.args with
  | [weightArg, heightArg] =>
    match t.json.get weightArg, t.json.get heightArg with
    | some weightVar, some heightVar =>
      match weightVar, heightVar with
      | .num weight, .num height =>
        let bmi := roundTenth (weight / (height * height))
        .ok [.num bmi, .bool (decide ((37 / 2 : Rat) ≤ bmi) && decide (bmi ≤ (249 / 10 : Rat)))]
      | _, _ => .error (cs "weight and height must be numbers")
    | _, _ => .error (cs "weight or height not found in JSON")
  | _ => .error (cs "bmi requires exactly two arguments")

/-! ## Program model and execution engine (internal/parser, internal/engine) -/

/-- `parser.Program`: target variable paths, transformer name, arguments. -/
structure Program where
  vars : List (List Char)
  transformer : List Char
  args : List (List Char)

/-- `NewEngine`'s registry, as one lookup: the four built-in transformers. -/
def invoke (name : List Char) (config : Config) : Option (Except Err Results) :=
  if name = cs "uppercase" then some (uppercaseTransform config)
  else if name = cs "concatenate" then some (concatenateTransform config)
  else if name = cs "bmi" then some (bmiTransform config)
  else if name = cs "split" then some (splitTransform config)
  else none

/-- The `transformer '%s' not found` message. -/
def notFoundMsg (name : List Char) : Err :=
  cs "transformer '" ++ name ++ cs "' not found"

/-- The count-mismatch message of `executeSet`. -/
def countMsg : Err :=
  cs "number of output values does not match the number of variables returned by transformer"

/-- The write-back loop of `executeSet`: results are written to the
variables positionally, in order, each write visible to the next. -/
def writeAll (doc : Value) : List (List Char) → Results → Value
  | v :: vs, x :: xs => writeAll (doc.set v x) vs xs
  | _, _ => doc

/-- `Engine.executeSet` (direct mode). -/
def executeSet (p : Program) (jsonData : Value) : Except Err Value :=
  match invoke p.transformer { args := p.args, json := jsonData } with
  | none => .error (notFoundMsg p.transformer)
  | some (.error e) => .error e
  | some (.ok transformedValues) =>
    if transformedValues.length ≠ p.vars.length then .error countMsg
    else .ok (writeAll jsonData p.vars transformedValues)

/-- `strings.Index(v, "#")` as an optional index. -/
def firstHash : List Char → Option Nat
  | [] => none
  | c :: rest => if c = '#' then some 0 else (firstHash rest).map (· + 1)

/-- `strings.Replace(v, "#", strconv.Itoa(i), 1)`: the first `#` becomes
the decimal index. -/
def substFirst (v : List Char) (i : Nat) : List Char :=
  match v with
  | [] => []
  | c :: rest => if c = '#' then natChars i ++ rest else c :: substFirst rest i

/-- The write-back loop of one iteration step: result `j` is written to
`Variables[j]` with its first `#` substituted.  `none` models the Go
index-out-of-range panic when the transformer returns more values than the
program declares variables. -/
def writeIter (doc : Value) (i : Nat) : List (List Char) → Results → Option Value
  | _, [] => some doc
  | [], _ :: _ => none
  | v :: vs, x :: xs => writeIter (doc.set (substFirst v i) x) i vs xs

/-- One index of `executeIteration`'s loop: registry lookup, invocation
with the single substituted path as the whole argument list, write-back. -/
def iterStep (p : Program) (tvar : List Char) (i : Nat) (doc : Value) :
    Option (Except Err Value) :=
  match invoke p.transformer { args := [substFirst tvar i], json := doc } with
  | none => some (.error (notFoundMsg p.transformer))
  | some (.error e) => some (.error e)
  | some (.ok transformedValues) =>
    match writeIter doc i p.vars transformedValues with
    | none => none
    | some doc2 => some (.ok doc2)

/-- `executeIteration`'s `for i := range array.Array()` loop. -/
def iterLoop (p : Program) (tvar : List Char) : List Nat → Value → Option (Except Err Value)
  | [], doc => some (.ok doc)
  | i :: is, doc =>
    match iterStep p tvar i doc with
    | none => none
    | some (.error e) => some (.error e)
    | some (.ok doc2) => iterLoop p tvar is doc2

/-- `Engine.executeIteration` (iteration mode).  `none` models the Go
slice/index panics: an empty variable list, no `#` in the first variable
(`variable[:-2]`), or `#` at position 0 (`variable[:-1]`). -/
def executeIteration (p : Program) (jsonData : Value) : Option (Except Err Value) :=
  match p.vars with
  | [] => none
  | tvar :: _ =>
    match firstHash tvar with
    | none => none
    | some k =>
      if k = 0 then none
      else
        match jsonData.get (tvar.take (k - 1)) with
        | some (.arr xs) => iterLoop p tvar (List.range xs.length) jsonData
        | _ => some (.error (cs "field '" ++ tvar.take (k - 1) ++ cs "' is not an array"))

/-- `Engine.Execute`: iteration mode when the first target variable
contains `#`, direct mode otherwise.  `none` models the Go panic on an
empty variable list (`program.Variables[0]`). -/
def Execute (p : Program) (jsonData : Value) : Option (Except Err Value) :=
  match p.vars with
  | [] => none
  | v0 :: _ =>
    if v0.contains '#' then executeIteration p jsonData
    else some (executeSet p jsonData)

/-- The sequential loop of `Engine.ExecuteAll`: each program's `Execute`
in order, threading the mutated document forward, aborting on the first
failure. -/
def runPrograms : List Program → Value → Option (Except Err Value)
  | [], doc => some (.ok doc)
  | p :: ps, doc =>
    match Execute p doc with
    | none => none
    | some (.error e) => some (.error e)
    | some (.ok doc2) => runPrograms ps doc2

/-- The cleanup loop of `Engine.ExecuteAll`: delete, in program order,
every declared variable for which `strings.HasPrefix(variable, "_")`. -/
def deleteTemps (ps : List Program) (doc : Value) : Value :=
  ((ps.map Program.vars).flatten).foldl
    (fun d v => if v.head? = some '_' then d.delete v else d) doc

/-- `Engine.ExecuteAll`: run the batch, then purge the `_`-prefixed
declared variables; an error aborts the whole batch with no document. -/
def ExecuteAll (ps : List Program) (jsonData : Value) : Option (Except Err Value) :=
  match runPrograms ps jsonData with
  | none => none
  | some (.error e) => some (.error e)
  | some (.ok doc) => some (.ok (deleteTemps ps doc))

/-! ## Tokenizer (internal/lexer, the line-based snapshot with `Line`) -/

/-- Token kinds.  `zero` embeds the zero-valued `Token` that a receive from
the lexer's closed channel yields once the stream is exhausted. -/
inductive TokKind where
  | ident | strTok | op | lparen | rparen | comma | keyword | errTok | eol | eof | zero
deriving DecidableEq

/-- `lexer.Token`: kind, literal, 1-based line, 0-based column in the line. -/
structure Tok where
  kind : TokKind
  lit : List Char
  line : Nat
  pos : Nat
deriving DecidableEq

/-- The fixed symbol table (`=`, `(`, `)`, `,`). -/
def symbolKind (c : Char) : Option TokKind :=
  if c = '=' then some .op
  else if c = '(' then some .lparen
  else if c = ')' then some .rparen
  else if c = ',' then some .comma
  else none

/-- `unicode.IsSpace` / `unicode.IsLetter`, restricted to ASCII: every
character a claim tokenizes is ASCII. -/
def isSpaceGo (c : Char) : Bool := c.isWhitespace

/-- See `isSpaceGo`. -/
def isLetterGo (c : Char) : Bool := c.isAlpha

/-- `isAllowedCharacter`: what may continue an identifier. -/
def isAllowedCharacter (c : Char) : Bool :=
  isLetterGo c || c.isDigit || c = '.' || c = '_' || c = '#'

/-- The keyword table: `SET` only. -/
def isKeyword (w : List Char) : Bool := w = cs "SET"

/-- The `unexpected character '%c'` message of `emitError`. -/
def unexpMsg (c : Char) : List Char := cs "unexpected character '" ++ [c] ++ cs "'"

/-- Index of the first apostrophe, if any (the scan of `lexString`). -/
def findQuote : List Char → Option Nat
  | [] => none
  | c :: rest => if c = '\'' then some 0 else (findQuote rest).map (· + 1)

/-- The `lexText` state machine over one line's content, fuelled by the
content length (every step consumes at least one character).  Returns the
tokens emitted, whether an `EOL` was emitted (the only place `l.line` is
incremented), and the final scan position (`l.pos`, which seeds the `EOF`
token's position after the last line).

On a character that is neither whitespace, letter, `_`, `#`, quote,
newline nor a registered symbol, the Go code emits an `Error` token and
then `return nil`: the remainder of the line is abandoned.  An empty
`rest` (the `r == -1` branch) is unreachable because `run` feeds each line
with a trailing newline; the Go code there would emit `EOF` tokens forever
into the channel, which no finite token list represents — the model emits
a single `EOF`. -/
def lexLineGo (lineNo : Nat) : Nat → List Char → Nat → List Tok × Bool × Nat
  | 0, _, pos => ([], false, pos)
  | _ + 1, [], pos => ([⟨.eof, [], lineNo, pos⟩], false, pos)
  | fuel + 1, c :: rest, pos =>
    if c = '\n' then ([⟨.eol, ['\n'], lineNo, pos⟩], true, pos + 1)
    else if c = '\'' then
      match findQuote rest with
      | some j =>
        let lit := '\'' :: rest.take j ++ ['\'']
        let (ts, e, p) := lexLineGo lineNo fuel (rest.drop (j + 1)) (pos + j + 2)
        (⟨.strTok, lit, lineNo, pos⟩ :: ts, e, p)
      | none => ([⟨.errTok, '\'' :: rest, lineNo, pos⟩], false, pos + 1 + rest.length)
    else if isSpaceGo c then lexLineGo lineNo fuel rest (pos + 1)
    else if isLetterGo c || c = '_' || c = '#' then
      let word := c :: rest.takeWhile isAllowedCharacter
      let rest2 := rest.dropWhile isAllowedCharacter
      let kind := if isKeyword word then TokKind.keyword else TokKind.ident
      let (ts, e, p) := lexLineGo lineNo fuel rest2 (pos + word.length)
      (⟨kind, word, lineNo, pos⟩ :: ts, e, p)
    else
      match symbolKind c with
      | some sk =>
        let (ts, e, p) := lexLineGo lineNo fuel rest (pos + 1)
        (⟨sk, [c], lineNo, pos⟩ :: ts, e, p)
      | none => ([⟨.errTok, unexpMsg c, lineNo, pos⟩], false, pos + 1)

/-- Tokenize one line: `run` sets the lexer's input to the line text plus a
newline and restarts `lexText` with position 0. -/
def lexLine (lineNo : Nat) (line : List Char) : List Tok × Bool × Nat :=
  let content := line ++ ['\n']
  lexLineGo lineNo (content.length + 1) content 0

/-- `bufio.ScanLines` strips one trailing carriage return per line. -/
def dropCR (s : List Char) : List Char :=
  if s.getLast? = some '\r' then s.dropLast else s

/-- `bufio.Scanner` with `ScanLines`: the input split at newlines, a final
newline producing no extra empty line, empty input producing no lines. -/
def scanLines (input : List Char) : List (List Char) :=
  if input = [] then []
  else
    let parts := splitOnChar '\n' input
    if input.getLast? = some '\n' then parts.dropLast else parts

/-- The `run` loop over the scanned lines, threading the line counter
(incremented only when an `EOL` token was emitted) and the scan position,
then emitting the final `EOF` token. -/
def runLexerGo : List (List Char) → Nat → Nat → List Tok
  | [], lineNo, endPos => [⟨.eof, [], lineNo, endPos⟩]
  | l :: ls, lineNo, _ =>
    let (ts, e, p) := lexLine lineNo (dropCR l)
    ts ++ runLexerGo ls (if e then lineNo + 1 else lineNo) p

/-- The whole tokenizer: `NewLexer` + `run` over an input text. -/
def runLexer (input : List Char) : List Tok :=
  runLexerGo (scanLines input) 1 0

/-! ## Parser (internal/parser/parser.go) -/

/-- The zero `Token` a read past `EOF` yields (closed channel). -/
def zeroTok : Tok := ⟨.zero, [], 0, 0⟩

/-- `nextToken` over the embedded token list. -/
def pnext : List Tok → Tok × List Tok
  | [] => (zeroTok, [])
  | t :: ts => (t, ts)

/-- `peekToken` over the embedded token list. -/
def ppeek : List Tok → Tok
  | [] => zeroTok
  | t :: _ => t

/-- `errorWithContext`: the message with line and position, the offending
source line, and a caret under the failing column.  With `tok.Line = 0`
(only the zero token) the Go code would panic indexing `lines[-1]`; that
call is unreachable from lexer-produced tokens, whose line is at least 1,
and the model returns a marker message instead. -/
def errorWithContext (input : List Char) (tok : Tok) (message : List Char) : Err :=
  let lines := splitOnChar '\n' input
  if lines.length < tok.line then cs "invalid line number " ++ natChars tok.line
  else if tok.line = 0 then cs "panic: index out of range"
  else
    let errorLine := lines.getD (tok.line - 1) []
    message ++ cs " at line " ++ natChars tok.line ++ cs ", position " ++ natChars tok.pos
      ++ ['\n'] ++ errorLine ++ ['\n'] ++ List.replicate tok.pos ' ' ++ ['^']

/-- `isTransformer`'s per-rune test: ASCII letters only. -/
def isAsciiAlpha (r : Char) : Bool := ('a' ≤ r && r ≤ 'z') || ('A' ≤ r && r ≤ 'Z')

/-- `isTransformer` accepts exactly the all-ASCII-letter literals. -/
def isTransformerOk (lit : List Char) : Bool := lit.all isAsciiAlpha

/-- The comma-driven loop of `parseVariables`: stop (without consuming) at
the `=` operator, consume `, IDENT` pairs, reject anything else. -/
def parseVarsLoop (input : List Char) (acc : List (List Char)) :
    List Tok → Except Err (List (List Char) × List Tok)
  | [] => .error (errorWithContext input zeroTok (cs "unexpected token in variables"))
  | t :: rest =>
    if t.kind = .op ∧ t.lit = cs "=" then .ok (acc, t :: rest)
    else if t.kind = .comma then
      match rest with
      | [] => .error (errorWithContext input zeroTok (cs "expected variable name"))
      | t2 :: rest2 =>
        if t2.kind = .ident then parseVarsLoop input (acc ++ [t2.lit]) rest2
        else .error (errorWithContext input t2 (cs "expected variable name"))
    else .error (errorWithContext input t (cs "unexpected token in variables"))

/-- `parseVariables`: at least one identifier, then the loop. -/
def parseVariables (input : List Char) (toks : List Tok) :
    Except Err (List (List Char) × List Tok) :=
  let (firstVar, rest) := pnext toks
  if firstVar.kind = .ident then parseVarsLoop input [firstVar.lit] rest
  else .error (errorWithContext input firstVar (cs "expected variable name"))

/-- The argument loop of `parseTransformer`: `)` closes, identifiers and
strings are collected, a comma continues. -/
def parseArgsLoop (input : List Char) (acc : List (List Char)) :
    List Tok → Except Err (List (List Char) × List Tok)
  | [] => .error (errorWithContext input zeroTok (cs "expected argument (field or string)"))
  | t :: rest =>
    if t.kind = .rparen then .ok (acc, rest)
    else if t.kind = .ident ∨ t.kind = .strTok then
      match rest with
      | [] => .error (errorWithContext input zeroTok (cs "unexpected token in arguments"))
      | t2 :: rest2 =>
        if t2.kind = .comma then parseArgsLoop input (acc ++ [t.lit]) rest2
        else if t2.kind = .rparen then .ok (acc ++ [t.lit], rest2)
        else .error (errorWithContext input t2 (cs "unexpected token in arguments"))
    else .error (errorWithContext input t (cs "expected argument (field or string)"))

/-- `parseTransformer`: an identifier-shaped name that passes the
ASCII-letters-only check, `(`, then the argument loop. -/
def parseTransformer (input : List Char) (toks : List Tok) :
    Except Err ((List Char × List (List Char)) × List Tok) :=
  let (transformer, rest) := pnext toks
  if transformer.kind ≠ .ident then
    .error (errorWithContext input transformer (cs "expected transformer name"))
  else if ¬ isTransformerOk transformer.lit then
    .error (errorWithContext input transformer (cs "expected transformer name to have only alphabets"))
  else
    let (lp, rest2) := pnext rest
    if lp.kind ≠ .lparen then
      .error (errorWithContext input lp (cs "expected symbol 'LPAREN'"))
    else
      match parseArgsLoop input [] rest2 with
      | .error e => .error e
      | .ok (args, rest3) => .ok ((transformer.lit, args), rest3)

/-- `parseProgram` (= `Run`): `SET`, variables, `=`, transformer call. -/
def parseProgram (input : List Char) (toks : List Tok) :
    Except Err (Program × List Tok) :=
  let (t, rest) := pnext toks
  if t.kind = .keyword ∧ t.lit = cs "SET" then
    match parseVariables input rest with
    | .error e => .error e
    | .ok (vars, rest2) =>
      let (eq, rest3) := pnext rest2
      if eq.kind = .op ∧ eq.lit = cs "=" then
        match parseTransformer input rest3 with
        | .error e => .error e
        | .ok ((name, args), rest4) => .ok (⟨vars, name, args⟩, rest4)
      else .error (errorWithContext input eq (cs "expected operator '='"))
  else .error (errorWithContext input t (cs "expected 'SET' keyword"))

/-- The `RunAll` loop, fuelled by the token count (each turn consumes at
least one token; the fuel-exhausted branch is an unreachable error). -/
def runAllGo (input : List Char) : Nat → List Tok → List Program →
    Except Err (List Program × List Tok)
  | 0, _, _ => .error (cs "out of fuel")
  | fuel + 1, toks, acc =>
    match parseProgram input toks with
    | .error e => .error e
    | .ok (program, rest) =>
      let acc2 := acc ++ [program]
      if (ppeek rest).kind = .eol then
        let rest2 := rest.drop 1
        if (ppeek rest2).kind = .eof then .ok (acc2, rest2)
        else runAllGo input fuel rest2 acc2
      else runAllGo input fuel rest acc2

/-- `Parser.RunAll`: every program of the script. -/
def RunAll (input : List Char) (toks : List Tok) : Except Err (List Program) :=
  match runAllGo input (toks.length + 1) toks [] with
  | .error e => .error e
  | .ok (programs, _) => .ok programs

/-- The whole front end: tokenize and parse a script. -/
def parseScript (input : List Char) : Except Err (List Program) :=
  RunAll input (runLexer input)

/-! ## Spec-side definition of iteration mode (for the refinement claim) -/

/-- One step of iteration mode as the spec words it: substitute the first
`#` in the path with the index, invoke the transformer with that single
substituted path as its only argument (the declared argument list is
discarded), and write the single returned value back to the same
substituted path.  A multi-value result falls outside the spec's mode
(never produced by a registry transformer given one argument). -/
def iterationSpecStep (name tvar : List Char) (i : Nat) (doc : Value) : Except Err Value :=
  let path := substFirst tvar i
  match invoke name { args := [path], json := doc } with
  | none => .error (notFoundMsg name)
  | some (.error e) => .error e
  | some (.ok [x]) => .ok (doc.set path x)
  | some (.ok _) => .error (cs "not a single result")

/-- The spec-side loop over a list of indices. -/
def iterationSpecGo (name tvar : List Char) : List Nat → Value → Except Err Value
  | [], doc => .ok doc
  | i :: is, doc =>
    match iterationSpecStep name tvar i doc with
    | .error e => .error e
    | .ok doc2 => iterationSpecGo name tvar is doc2

/-- Iteration mode as the spec words it: one invocation per array index,
`0` through `n - 1`, in order. -/
def iterationSpec (name tvar : List Char) (n : Nat) (doc : Value) : Except Err Value :=
  iterationSpecGo name tvar (List.range n) doc

/-! # Theorems

Sanity checks against the repository's own test vectors, shared helper
lemmas, and the claim theorems.
-/

example :
    (Value.obj [(cs "name", .str (cs "x"))]).set (cs "address.city") (.str (cs "Y"))
      = Value.obj [(cs "name", .str (cs "x")),
          (cs "address", .obj [(cs "city", .str (cs "Y"))])] := rfl
example :
    (Value.obj [(cs "a", .arr [.str (cs "p"), .str (cs "q")])]).get (cs "a.1")
      = some (.str (cs "q")) := rfl

-- TestLexer: the full token stream of one command line.
example :
    runLexer (cs "SET bmi, isHealthy = bmi(weight, height)") =
      [⟨.keyword, cs "SET", 1, 0⟩, ⟨.ident, cs "bmi", 1, 4⟩, ⟨.comma, cs ",", 1, 7⟩,
       ⟨.ident, cs "isHealthy", 1, 9⟩, ⟨.op, cs "=", 1, 19⟩, ⟨.ident, cs "bmi", 1, 21⟩,
       ⟨.lparen, cs "(", 1, 24⟩, ⟨.ident, cs "weight", 1, 25⟩, ⟨.comma, cs ",", 1, 31⟩,
       ⟨.ident, cs "height", 1, 33⟩, ⟨.rparen, cs ")", 1, 39⟩, ⟨.eol, cs "\n", 1, 40⟩,
       ⟨.eof, [], 2, 41⟩] := by decide

-- The bad-character input of TestUnexpectedToken: the current lexer stops
-- the line after the first error token.
example :
    runLexer (cs "SET name = @123invalid") =
      [⟨.keyword, cs "SET", 1, 0⟩, ⟨.ident, cs "name", 1, 4⟩, ⟨.op, cs "=", 1, 9⟩,
       ⟨.errTok, cs "unexpected character '@'", 1, 11⟩, ⟨.eof, [], 1, 12⟩] := by decide

-- TestParser shape.
example :
    parseScript (cs "SET a, b = t(c, d)") =
      .ok [⟨[cs "a", cs "b"], cs "t", [cs "c", cs "d"]⟩] := by rfl

-- TestParserWithSyntaxError: the exact three-line diagnostic.
example :
    parseScript (cs "SET a, b = concatenate(name, surname") =
      .error (cs "unexpected token in arguments at line 1, position 36\nSET a, b = concatenate(name, surname\n                                    ^") := by rfl

-- TestEngineWithIterations (shortened to two friends).
example :
    Execute ⟨[cs "friends.#.first"], cs "uppercase", [cs "friends.#.first"]⟩
      (Value.obj [(cs "friends", .arr
        [.obj [(cs "first", .str (cs "Dale"))], .obj [(cs "first", .str (cs "Roger"))]])]) =
      some (.ok (Value.obj [(cs "friends", .arr
        [.obj [(cs "first", .str (cs "DALE"))], .obj [(cs "first", .str (cs "ROGER"))]])])) := by rfl

-- TestEngineExecuteAll flavour: concatenate then uppercase, threading.
example :
    ExecuteAll
      [⟨[cs "completeName"], cs "concatenate", [cs "' '", cs "name", cs "surname"]⟩,
       ⟨[cs "completeName"], cs "uppercase", [cs "completeName"]⟩]
      (Value.obj [(cs "name", .str (cs "john")), (cs "surname", .str (cs "doe"))]) =
      some (.ok (Value.obj [(cs "name", .str (cs "john")), (cs "surname", .str (cs "doe")),
        (cs "completeName", .str (cs "JOHN DOE"))])) := by rfl

/-! ## C1: batch execution aborts on the first failure with no document -/

/-- Running a batch whose prefix succeeds and whose next program fails
yields exactly that failure. -/
theorem runPrograms_append_error (ps1 : List Program) (p : Program) (ps2 : List Program)
    (d d1 : Value) (e : Err) :
    runPrograms ps1 d = some (.ok d1) → Execute p d1 = some (.error e) →
    runPrograms (ps1 ++ p :: ps2) d = some (.error e) := by
  induction ps1 generalizing d with
  | nil =>
    intro h1 h2
    simp only [runPrograms] at h1
    cases h1
    simp [runPrograms, h2]
  | cons q qs ih =>
    intro h1 h2
    simp only [runPrograms, List.cons_append] at h1 ⊢
    cases hq : Execute q d with
    | none => rw [hq] at h1; simp at h1
    | some r =>
      cases r with
      | error e' => rw [hq] at h1; simp at h1
      | ok d2 =>
        rw [hq] at h1
        simp at h1
        exact ih d2 h1 h2

/-- C1: `ExecuteAll` runs the programs strictly in sequence, threading the
mutated document; as soon as one program's `Execute` fails, the whole batch
returns that error and no document — the mutations of the earlier programs
(present only in the intermediate document `d1`) are not part of the
returned value. -/
theorem C1_executeAll_aborts (ps1 : List Program) (p : Program) (ps2 : List Program)
    (d d1 : Value) (e : Err) :
    runPrograms ps1 d = some (.ok d1) → Execute p d1 = some (.error e) →
    ExecuteAll (ps1 ++ p :: ps2) d = some (.error e) := by
  intro h1 h2
  unfold ExecuteAll
  rw [runPrograms_append_error ps1 p ps2 d d1 e h1 h2]

/-- Witness for C1: a first program that writes `completeName`, a second
that references a missing field; the batch returns the error alone. -/
theorem C1_executeAll_aborts_witness :
    runPrograms [⟨[cs "completeName"], cs "uppercase", [cs "name"]⟩]
        (Value.obj [(cs "name", .str (cs "john"))]) =
      some (.ok (Value.obj [(cs "name", .str (cs "john")),
        (cs "completeName", .str (cs "JOHN"))])) ∧
    Execute ⟨[cs "x"], cs "uppercase", [cs "missing"]⟩
        (Value.obj [(cs "name", .str (cs "john")),
          (cs "completeName", .str (cs "JOHN"))]) =
      some (.error (argNotFoundMsg (cs "missing"))) ∧
    ExecuteAll
        [⟨[cs "completeName"], cs "uppercase", [cs "name"]⟩,
         ⟨[cs "x"], cs "uppercase", [cs "missing"]⟩]
        (Value.obj [(cs "name", .str (cs "john"))]) =
      some (.error (argNotFoundMsg (cs "missing"))) :=
  ⟨rfl, rfl,
    C1_executeAll_aborts [⟨[cs "completeName"], cs "uppercase", [cs "name"]⟩]
      ⟨[cs "x"], cs "uppercase", [cs "missing"]⟩ []
      (Value.obj [(cs "name", .str (cs "john"))])
      (Value.obj [(cs "name", .str (cs "john")), (cs "completeName", .str (cs "JOHN"))])
      (argNotFoundMsg (cs "missing")) rfl rfl⟩

/-! ## C2 (counterexample): a declared temporary whose leaf (not root)
segment starts with `_` survives a successful batch -/

/-- C2 is false as stated: the batch declaring the variable `address._tmp`
completes successfully, yet the final document still contains the field —
the cleanup loop tests `strings.HasPrefix(variable, "_")`, which looks
only at the path's first character. -/
theorem C2_leaf_temp_not_deleted :
    ExecuteAll [⟨[cs "address._tmp"], cs "uppercase", [cs "name"]⟩]
        (Value.obj [(cs "name", .str (cs "x"))]) =
      some (.ok (Value.obj [(cs "name", .str (cs "x")),
        (cs "address", .obj [(cs "_tmp", .str (cs "X"))])])) ∧
    (Value.obj [(cs "name", .str (cs "x")),
        (cs "address", .obj [(cs "_tmp", .str (cs "X"))])]).get (cs "address._tmp") =
      some (.str (cs "X")) :=
  ⟨rfl, rfl⟩

/-! ## C3 (counterexample): no results/variables count check in iteration
mode -/

/-- C3 is false as stated: in iteration mode the program declares two
variables while the invoked transformer returns a single result, yet
`Execute` succeeds (writing only the first variable) instead of failing
with a count-mismatch error. -/
theorem C3_iteration_mismatch_succeeds :
    (⟨[cs "friends.#.first", cs "extra"], cs "uppercase",
        [cs "whatever"]⟩ : Program).vars.length = 2 ∧
    invoke (cs "uppercase")
        { args := [cs "friends.0.first"],
          json := Value.obj [(cs "friends", .arr [.obj [(cs "first", .str (cs "dale"))]])] } =
      some (.ok [.str (cs "DALE")]) ∧
    Execute ⟨[cs "friends.#.first", cs "extra"], cs "uppercase", [cs "whatever"]⟩
        (Value.obj [(cs "friends", .arr [.obj [(cs "first", .str (cs "dale"))]])]) =
      some (.ok (Value.obj [(cs "friends", .arr [.obj [(cs "first", .str (cs "DALE"))]])])) :=
  ⟨rfl, rfl, rfl⟩

/-! ## C5 (counterexample): dispatch looks only at the first variable -/

/-- C5 is false as stated: the program's second variable contains `#`, yet
`Execute` runs direct mode (it returns `executeSet`'s count-mismatch
error, a check that exists only in direct mode), and `executeIteration`
at this input is the Go slice panic (`strings.Index` returns -1). -/
theorem C5_second_variable_hash_direct :
    ((⟨[cs "a", cs "b.#"], cs "uppercase", [cs "name"]⟩ : Program).vars.any
      fun v => v.contains '#') = true ∧
    Execute ⟨[cs "a", cs "b.#"], cs "uppercase", [cs "name"]⟩
        (Value.obj [(cs "name", .str (cs "x"))]) =
      some (.error countMsg) ∧
    Execute ⟨[cs "a", cs "b.#"], cs "uppercase", [cs "name"]⟩
        (Value.obj [(cs "name", .str (cs "x"))]) =
      some (executeSet ⟨[cs "a", cs "b.#"], cs "uppercase", [cs "name"]⟩
        (Value.obj [(cs "name", .str (cs "x"))])) ∧
    executeIteration ⟨[cs "a", cs "b.#"], cs "uppercase", [cs "name"]⟩
        (Value.obj [(cs "name", .str (cs "x"))]) = none :=
  ⟨rfl, rfl, rfl, rfl⟩

/-! ## C6 (counterexample): argument interpretation is positional, not
quote-driven -/

/-- C6 is false as stated: `concatenate`'s first argument `sep` is not of
the form `'...'`, so per the claim it must be resolved as a field path and
the missing field must fail the program; the code instead treats the first
position as the separator literal and succeeds. -/
theorem C6_unquoted_literal_position_not_resolved :
    (Value.obj [(cs "a", .str (cs "1")), (cs "b", .str (cs "2"))]).get (cs "sep") = none ∧
    concatenateTransform
        { args := [cs "sep", cs "a", cs "b"],
          json := Value.obj [(cs "a", .str (cs "1")), (cs "b", .str (cs "2"))] } =
      .ok [.str (cs "1sep2")] :=
  ⟨rfl, rfl⟩

/-! ## C8 (code bug): a bad character aborts the rest of its line -/

/-- C8: on `SET name = @123invalid` the tokenizer emits the `Error` token
for `@` and then abandons the remainder of the line — the next token is
`EOF`, and no `IDENTIFIER "invalid"` (nor error tokens for `1`, `2`, `3`)
is ever produced, contradicting both the claim and
`TestUnexpectedToken` in src/internal/lexer/lexer_test.go. -/
theorem C8_lexer_stops_line_on_bad_char :
    runLexer (cs "SET name = @123invalid") =
      [⟨.keyword, cs "SET", 1, 0⟩, ⟨.ident, cs "name", 1, 4⟩, ⟨.op, cs "=", 1, 9⟩,
       ⟨.errTok, cs "unexpected character '@'", 1, 11⟩, ⟨.eof, [], 1, 12⟩] ∧
    ⟨.ident, cs "invalid", 1, 15⟩ ∉ runLexer (cs "SET name = @123invalid") := by
  decide

/-! ## C3 (amended): the count check exists in direct mode only -/

/-- C3 amended: in direct mode, a transformer result sequence whose length
differs from the variable count fails `executeSet` with the count-mismatch
error before any write (iteration mode performs no such check, per the
counterexample). -/
theorem C3_direct_mode_count_check (p : Program) (d : Value) (tvs : Results) :
    invoke p.transformer { args := p.args, json := d } = some (.ok tvs) →
    tvs.length ≠ p.vars.length →
    executeSet p d = .error countMsg := by
  intro h1 h2
  unfold executeSet
  rw [h1]
  simp [h2]

/-- Witness for the amended C3: `split` returns two values for a program
declaring one variable; direct mode fails with the count-mismatch error. -/
theorem C3_direct_mode_count_check_witness :
    invoke (cs "split")
        { args := [cs "place", cs "'/'"],
          json := Value.obj [(cs "place", .str (cs "x/y"))] } =
      some (.ok [.str (cs "x"), .str (cs "y")]) ∧
    ([Value.str (cs "x"), Value.str (cs "y")].length ≠
      (⟨[cs "city"], cs "split", [cs "place", cs "'/'"]⟩ : Program).vars.length) ∧
    executeSet ⟨[cs "city"], cs "split", [cs "place", cs "'/'"]⟩
        (Value.obj [(cs "place", .str (cs "x/y"))]) = .error countMsg :=
  ⟨rfl, by decide,
    C3_direct_mode_count_check ⟨[cs "city"], cs "split", [cs "place", cs "'/'"]⟩
      (Value.obj [(cs "place", .str (cs "x/y"))])
      [.str (cs "x"), .str (cs "y")] rfl (by decide)⟩

/-! ## C5 (amended): dispatch is decided by the first variable alone -/

/-- Helper: the mode dispatch of `Execute`, made explicit. -/
theorem Execute_dispatch (p : Program) (d : Value) (v0 : List Char) (vs : List (List Char))
    (h : p.vars = v0 :: vs) :
    Execute p d = if v0.contains '#' then executeIteration p d
      else some (executeSet p d) := by
  cases p with
  | mk pv pt pa => cases h; rfl

/-- C5 amended: `Execute` runs iteration mode if and only if the FIRST
target variable path contains `#`; later variables are not consulted. -/
theorem C5_dispatch_first_variable (p : Program) (d : Value) (v0 : List Char)
    (vs : List (List Char)) :
    p.vars = v0 :: vs →
    Execute p d = if v0.contains '#' then executeIteration p d
      else some (executeSet p d) :=
  fun h => Execute_dispatch p d v0 vs h

/-- Witness for the amended C5 at a concrete iteration-mode program. -/
theorem C5_dispatch_first_variable_witness :
    Execute ⟨[cs "friends.#.first"], cs "uppercase", [cs "friends.#.first"]⟩
        (Value.obj [(cs "friends", .arr [.obj [(cs "first", .str (cs "Dale"))]])]) =
      (if (cs "friends.#.first").contains '#' then
        executeIteration ⟨[cs "friends.#.first"], cs "uppercase", [cs "friends.#.first"]⟩
          (Value.obj [(cs "friends", .arr [.obj [(cs "first", .str (cs "Dale"))]])])
      else some (executeSet ⟨[cs "friends.#.first"], cs "uppercase", [cs "friends.#.first"]⟩
        (Value.obj [(cs "friends", .arr [.obj [(cs "first", .str (cs "Dale"))]])]))) :=
  C5_dispatch_first_variable _ _ (cs "friends.#.first") [] rfl

/-! ## C6 (amended): literal positions are quote-trimmed, path positions
are always resolved -/

/-- Dropping quote characters ignores a leading quote. -/
theorem trimQuotes_cons_quote (t : List Char) : trimQuotes ('\'' :: t) = trimQuotes t := by
  simp [trimQuotes, List.dropWhile]

/-- Dropping quote characters ignores a trailing quote. -/
theorem trimQuotes_append_quote (t : List Char) :
    trimQuotes (t ++ ['\'']) = trimQuotes t := by
  unfold trimQuotes
  rw [List.dropWhile_append]
  split
  · next h =>
    simp only [List.isEmpty_iff] at h
    simp [h, List.dropWhile]
  · simp [List.dropWhile]

/-- A quote-wrapped token trims to the same separator as the bare token. -/
theorem trimQuotes_quote_wrap (s : List Char) :
    trimQuotes ('\'' :: (s ++ ['\''])) = trimQuotes s := by
  rw [trimQuotes_cons_quote, trimQuotes_append_quote]

/-- C6 amended: argument interpretation is positional per transformer, not
quote-driven.  Concatenate's first argument is always the separator
literal — quote-wrapping it changes nothing; uppercase's argument is
always resolved via `get` — a missing field fails even though the claim
would treat a quoted token as a literal; split's second argument is always
the separator literal. -/
theorem C6_positional_argument_interpretation :
    (∀ d sep fs, concatenateTransform { args := ('\'' :: (sep ++ ['\''])) :: fs, json := d } =
        concatenateTransform { args := sep :: fs, json := d }) ∧
    (∀ d a, d.get a = none →
        uppercaseTransform { args := [a], json := d } = .error (argNotFoundMsg a)) ∧
    (∀ d f s, splitTransform { args := [f, '\'' :: (s ++ ['\''])], json := d } =
        splitTransform { args := [f, s], json := d }) := by
  refine ⟨fun d sep fs => ?_, fun d a h => ?_, fun d f s => ?_⟩
  · cases fs with
    | nil => rfl
    | cons f1 fs' =>
      cases fs' with
      | nil => rfl
      | cons f2 fs'' => simp [concatenateTransform, trimQuotes_quote_wrap]
  · simp [uppercaseTransform, h]
  · cases h : d.get f <;> simp [splitTransform, h, trimQuotes_quote_wrap]

/-- Witness for the amended C6 at concrete separators, documents and a
quoted missing field. -/
theorem C6_positional_argument_interpretation_witness :
    concatenateTransform
        { args := [cs "'-'", cs "a", cs "b"],
          json := Value.obj [(cs "a", .str (cs "1")), (cs "b", .str (cs "2"))] } =
      concatenateTransform
        { args := [cs "-", cs "a", cs "b"],
          json := Value.obj [(cs "a", .str (cs "1")), (cs "b", .str (cs "2"))] } ∧
    ((Value.obj [(cs "name", .str (cs "x"))]).get (cs "'name'") = none ∧
      uppercaseTransform
          { args := [cs "'name'"], json := Value.obj [(cs "name", .str (cs "x"))] } =
        .error (argNotFoundMsg (cs "'name'"))) ∧
    splitTransform
        { args := [cs "place", cs "'/'"],
          json := Value.obj [(cs "place", .str (cs "x/y"))] } =
      splitTransform
        { args := [cs "place", cs "/"],
          json := Value.obj [(cs "place", .str (cs "x/y"))] } :=
  ⟨C6_positional_argument_interpretation.1
      (Value.obj [(cs "a", .str (cs "1")), (cs "b", .str (cs "2"))]) (cs "-")
      [cs "a", cs "b"],
   ⟨rfl, C6_positional_argument_interpretation.2.1
      (Value.obj [(cs "name", .str (cs "x"))]) (cs "'name'") rfl⟩,
   C6_positional_argument_interpretation.2.2
      (Value.obj [(cs "place", .str (cs "x/y"))]) (cs "place") (cs "/")⟩

/-! ## C2 (amended): root-underscore declared variables are purged -/

/-- Splitting at a character that does not occur returns the whole list. -/
theorem splitOnChar_not_mem (sep : Char) (s : List Char) (h : sep ∉ s) :
    splitOnChar sep s = [s] := by
  induction s with
  | nil => rfl
  | cons c rest ih =>
    simp only [List.mem_cons, not_or] at h
    obtain ⟨h1, h2⟩ := h
    simp [splitOnChar, ih h2, Ne.symm h1]

/-- A single-segment path with no dot resolves by one `getSeg` step. -/
theorem get_single (d : Value) (v : List Char) (hd : '.' ∉ v) :
    d.get v = getSeg d v := by
  simp only [Value.get, splitDot, splitOnChar_not_mem '.' v hd]
  cases hg : getSeg d v <;> simp [getPath, hg]

/-- A segment starting with `_` is no array index. -/
theorem segIndex_underscore (v : List Char) (h : v.head? = some '_') :
    segIndex v = none := by
  cases v with
  | nil => cases h
  | cons c t =>
    simp only [List.head?_cons, Option.some.injEq] at h
    subst h
    simp [segIndex]

/-- Deleting key `v` leaves no binding of `v` to look up. -/
theorem lookupField_filter_self (fs : List (List Char × Value)) (v : List Char) :
    lookupField (fs.filter fun kv => !decide (kv.1 = v)) v = none := by
  induction fs with
  | nil => rfl
  | cons kv rest ih =>
    by_cases h : kv.1 = v
    · simp [List.filter_cons, h, ih]
    · simp [List.filter_cons, h, lookupField, ih]

/-- Filtering never introduces a binding. -/
theorem lookupField_filter_none (fs : List (List Char × Value))
    (p : List Char × Value → Bool) (v : List Char) (h : lookupField fs v = none) :
    lookupField (fs.filter p) v = none := by
  induction fs with
  | nil => rfl
  | cons kv rest ih =>
    by_cases hk : kv.1 = v
    · simp [lookupField, hk] at h
    · have h' : lookupField rest v = none := by
        simpa [lookupField, hk] using h
      cases hp : p kv <;> simp [List.filter_cons, hp, lookupField, hk, ih h']

/-- Replacing the value under one key never introduces a binding. -/
theorem lookupField_replaceField_none (fs : List (List Char × Value))
    (s : List Char) (x : Value) (v : List Char) (h : lookupField fs v = none) :
    lookupField (replaceField fs s x) v = none := by
  induction fs with
  | nil => rfl
  | cons kv rest ih =>
    by_cases hk : kv.1 = v
    · simp [lookupField, hk] at h
    · have h' : lookupField rest v = none := by
        simpa [lookupField, hk] using h
      by_cases hs : kv.1 = s
      · have hstep : replaceField (kv :: rest) s x = (s, x) :: replaceField rest s x := by
          simp [replaceField, hs]
        have hsv : ¬ s = v := fun hsv => hk (hs.trans hsv)
        rw [hstep]
        simp [lookupField, hsv, ih h']
      · have hstep : replaceField (kv :: rest) s x = kv :: replaceField rest s x := by
          simp [replaceField, hs]
        rw [hstep]
        simp [lookupField, hk, ih h']

/-- Deleting below an array yields an array. -/
theorem deletePath_arr (xs : List Value) (ss : List (List Char)) :
    ∃ ys, deletePath (Value.arr xs) ss = .arr ys := by
  match ss with
  | [] => exact ⟨xs, rfl⟩
  | [s] =>
    cases hsi : segIndex s with
    | none => exact ⟨xs, by simp [deletePath, hsi]⟩
    | some i => exact ⟨xs.take i ++ xs.drop (i + 1), by simp [deletePath, hsi]⟩
  | s :: s2 :: rest =>
    cases hsi : segIndex s with
    | none => exact ⟨xs, by simp [deletePath, hsi]⟩
    | some i =>
      cases hg : xs.get? i with
      | none =>
        exact ⟨xs, by
          have hg' : xs[i]? = none := by simpa [List.get?_eq_getElem?] using hg
          simp [deletePath, hsi, hg']⟩
      | some w =>
        exact ⟨xs.set i (deletePath w (s2 :: rest)), by
          have hg' : xs[i]? = some w := by simpa [List.get?_eq_getElem?] using hg
          simp [deletePath, hsi, hg']⟩

/-- A dot-free path as one-segment list under `delete`. -/
theorem delete_single (d : Value) (v : List Char) (hd : '.' ∉ v) :
    d.delete v = deletePath d [v] := by
  simp only [Value.delete, splitDot, splitOnChar_not_mem '.' v hd]

/-- Deleting the single-segment underscore path `v` removes it. -/
theorem getSeg_delete_self (v : List Char) (hu : v.head? = some '_') (d : Value) :
    getSeg (deletePath d [v]) v = none := by
  cases d with
  | obj fields => simp [deletePath, getSeg, lookupField_filter_self]
  | arr xs => simp [deletePath, segIndex_underscore v hu, getSeg]
  | null => simp [deletePath, getSeg]
  | str s => simp [deletePath, getSeg]
  | num q => simp [deletePath, getSeg]
  | bool b => simp [deletePath, getSeg]

/-- No deletion re-creates an absent single-segment underscore path. -/
theorem getSeg_delete_preserve (v : List Char) (hu : v.head? = some '_')
    (d : Value) (ss : List (List Char)) (h : getSeg d v = none) :
    getSeg (deletePath d ss) v = none := by
  cases ss with
  | nil => simpa [deletePath] using h
  | cons s rest =>
    cases rest with
    | nil =>
      cases d with
      | obj fields =>
        simp only [getSeg] at h
        simpa [deletePath, getSeg] using lookupField_filter_none _ _ _ h
      | arr xs =>
        cases hsi : segIndex s <;>
          simp [deletePath, hsi, getSeg, segIndex_underscore v hu]
      | null => simp [deletePath, getSeg]
      | str s' => simp [deletePath, getSeg]
      | num q => simp [deletePath, getSeg]
      | bool b => simp [deletePath, getSeg]
    | cons s2 rest2 =>
      cases d with
      | obj fields =>
        simp only [getSeg] at h
        cases hl : lookupField fields s
        · simpa [deletePath, hl, getSeg] using h
        · simpa [deletePath, hl, getSeg] using
            lookupField_replaceField_none _ _ _ _ h
      | arr xs =>
        obtain ⟨ys, hys⟩ := deletePath_arr xs (s :: s2 :: rest2)
        rw [hys]
        simp [getSeg, segIndex_underscore v hu]
      | null => simp [deletePath, getSeg]
      | str s' => simp [deletePath, getSeg]
      | num q => simp [deletePath, getSeg]
      | bool b => simp [deletePath, getSeg]

/-- The cleanup fold never re-creates an absent underscore variable. -/
theorem foldDeletes_preserve (v : List Char) (hu : v.head? = some '_')
    (hd : '.' ∉ v) (ws : List (List Char)) (d : Value) (h : d.get v = none) :
    (ws.foldl (fun d' w => if w.head? = some '_' then d'.delete w else d') d).get v
      = none := by
  induction ws generalizing d with
  | nil => exact h
  | cons w ws' ih =>
    simp only [List.foldl_cons]
    apply ih
    by_cases hw : w.head? = some '_'
    · rw [get_single _ _ hd] at h ⊢
      simp only [hw, if_pos]
      exact getSeg_delete_preserve v hu _ _ h
    · simpa [hw] using h

/-- Once its own deletion runs, an underscore variable is gone for good. -/
theorem foldDeletes_mem (v : List Char) (hu : v.head? = some '_')
    (hd : '.' ∉ v) (ws : List (List Char)) (d : Value) (hv : v ∈ ws) :
    (ws.foldl (fun d' w => if w.head? = some '_' then d'.delete w else d') d).get v
      = none := by
  induction ws generalizing d with
  | nil => cases hv
  | cons w ws' ih =>
    rcases List.mem_cons.mp hv with rfl | hv'
    · simp only [List.foldl_cons, hu, if_pos]
      apply foldDeletes_preserve v hu hd
      rw [get_single _ _ hd, delete_single d v hd]
      exact getSeg_delete_self v hu d
    · simp only [List.foldl_cons]
      exact ih _ hv'

/-- C2 amended: a successful batch returns the document after deleting, in
program order, exactly the declared variables whose path string starts
with `_` (the root-segment prefix check); in particular every declared
single-segment variable starting with `_` is absent from the final
document.  (Per the counterexample, a path whose leaf but not root segment
starts with `_`, such as `address._tmp`, is not deleted.) -/
theorem C2_root_temp_deleted :
    (∀ ps d d0, runPrograms ps d = some (.ok d0) →
        ExecuteAll ps d = some (.ok (deleteTemps ps d0))) ∧
    (∀ ps (d0 : Value) (v : List Char),
        v ∈ ((ps.map Program.vars).flatten) → v.head? = some '_' → '.' ∉ v →
        (deleteTemps ps d0).get v = none) := by
  constructor
  · intro ps d d0 h
    unfold ExecuteAll
    rw [h]
  · intro ps d0 v hv hu hd
    unfold deleteTemps
    exact foldDeletes_mem v hu hd _ d0 hv

/-- Witness for the amended C2: the batch declares `_tmp`, succeeds, and
the returned document no longer contains `_tmp`. -/
theorem C2_root_temp_deleted_witness :
    runPrograms [⟨[cs "_tmp"], cs "uppercase", [cs "name"]⟩]
        (Value.obj [(cs "name", .str (cs "ab"))]) =
      some (.ok (Value.obj [(cs "name", .str (cs "ab")),
        (cs "_tmp", .str (cs "AB"))])) ∧
    ExecuteAll [⟨[cs "_tmp"], cs "uppercase", [cs "name"]⟩]
        (Value.obj [(cs "name", .str (cs "ab"))]) =
      some (.ok (deleteTemps [⟨[cs "_tmp"], cs "uppercase", [cs "name"]⟩]
        (Value.obj [(cs "name", .str (cs "ab")), (cs "_tmp", .str (cs "AB"))]))) ∧
    (deleteTemps [⟨[cs "_tmp"], cs "uppercase", [cs "name"]⟩]
        (Value.obj [(cs "name", .str (cs "ab")), (cs "_tmp", .str (cs "AB"))])).get
      (cs "_tmp") = none :=
  ⟨rfl,
   C2_root_temp_deleted.1 [⟨[cs "_tmp"], cs "uppercase", [cs "name"]⟩]
     (Value.obj [(cs "name", .str (cs "ab"))])
     (Value.obj [(cs "name", .str (cs "ab")), (cs "_tmp", .str (cs "AB"))]) rfl,
   C2_root_temp_deleted.2 [⟨[cs "_tmp"], cs "uppercase", [cs "name"]⟩]
     (Value.obj [(cs "name", .str (cs "ab")), (cs "_tmp", .str (cs "AB"))])
     (cs "_tmp") (by decide) rfl (by decide)⟩

/-! ## C4: iteration mode refines the spec's per-element semantics -/

/-- Any registry transformer that succeeds on a single-argument
configuration returns exactly one value (uppercase is the only one that
accepts one argument, and it returns one result). -/
theorem invoke_single_arg (name a : List Char) (d : Value) (tvs : Results)
    (h : invoke name { args := [a], json := d } = some (.ok tvs)) :
    ∃ x, tvs = [x] := by
  unfold invoke at h
  split_ifs at h with h1 h2 h3 h4
  · simp only [Option.some.injEq] at h
    cases hg : d.get a with
    | none => simp [uppercaseTransform, hg] at h
    | some v =>
      simp [uppercaseTransform, hg] at h
      exact ⟨_, h.symm⟩
  · simp [concatenateTransform] at h
  · simp [bmiTransform] at h
  · simp [splitTransform] at h

/-- The engine's iteration loop computes the spec-side loop: with a single
declared variable, each step invokes the transformer on the substituted
path alone and writes the single result back to that path. -/
theorem iterLoop_spec (p : Program) (tvar : List Char) (hvars : p.vars = [tvar]) :
    ∀ (is : List Nat) (d : Value),
      iterLoop p tvar is d = some (iterationSpecGo p.transformer tvar is d) := by
  intro is
  induction is with
  | nil => intro d; rfl
  | cons i is' ih =>
    intro d
    simp only [iterLoop, iterationSpecGo]
    cases hi : invoke p.transformer { args := [substFirst tvar i], json := d } with
    | none => simp [iterStep, iterationSpecStep, hi]
    | some r =>
      cases r with
      | error e => simp [iterStep, iterationSpecStep, hi]
      | ok tvs =>
        obtain ⟨x, rfl⟩ := invoke_single_arg _ _ _ _ hi
        simp only [iterStep, iterationSpecStep, hi, hvars, writeIter]
        exact ih _

/-- C4: in iteration mode, for a single target path whose prefix resolves
to an array of length `n`, the engine performs exactly the spec's `n`
per-index steps — transformer invoked with the single substituted path as
its whole argument list (declared args discarded), single result written
back to the same substituted path — and on the spec's example document the
uppercase program rewrites both friends' first names. -/
theorem C4_iteration_refines_spec :
    (∀ (p : Program) (d : Value) (tvar : List Char) (k : Nat) (xs : List Value),
      p.vars = [tvar] → firstHash tvar = some k → 1 ≤ k →
      d.get (tvar.take (k - 1)) = some (.arr xs) →
      executeIteration p d = some (iterationSpec p.transformer tvar xs.length d)) ∧
    Execute ⟨[cs "friends.#.first"], cs "uppercase", [cs "friends.#.first"]⟩
        (Value.obj [(cs "friends", .arr [.obj [(cs "first", .str (cs "Dale"))],
          .obj [(cs "first", .str (cs "Roger"))]])]) =
      some (.ok (Value.obj [(cs "friends", .arr [.obj [(cs "first", .str (cs "DALE"))],
        .obj [(cs "first", .str (cs "ROGER"))]])])) := by
  constructor
  · intro p d tvar k xs hvars hhash hk hget
    have hk0 : ¬ k = 0 := by omega
    unfold executeIteration
    rw [hvars]
    simp only [hhash, hk0, if_neg, hget]
    exact iterLoop_spec p tvar hvars (List.range xs.length) d
  · rfl

/-- Witness for C4 at the spec's example: two friends, `#` at index 8,
prefix `friends` resolving to the two-element array. -/
theorem C4_iteration_refines_spec_witness :
    firstHash (cs "friends.#.first") = some 8 ∧
    (Value.obj [(cs "friends", .arr [.obj [(cs "first", .str (cs "Dale"))],
        .obj [(cs "first", .str (cs "Roger"))]])]).get ((cs "friends.#.first").take 7) =
      some (.arr [.obj [(cs "first", .str (cs "Dale"))],
        .obj [(cs "first", .str (cs "Roger"))]]) ∧
    executeIteration ⟨[cs "friends.#.first"], cs "uppercase", [cs "friends.#.first"]⟩
        (Value.obj [(cs "friends", .arr [.obj [(cs "first", .str (cs "Dale"))],
          .obj [(cs "first", .str (cs "Roger"))]])]) =
      some (iterationSpec (cs "uppercase") (cs "friends.#.first") 2
        (Value.obj [(cs "friends", .arr [.obj [(cs "first", .str (cs "Dale"))],
          .obj [(cs "first", .str (cs "Roger"))]])])) :=
  ⟨rfl, rfl,
   C4_iteration_refines_spec.1
     ⟨[cs "friends.#.first"], cs "uppercase", [cs "friends.#.first"]⟩
     (Value.obj [(cs "friends", .arr [.obj [(cs "first", .str (cs "Dale"))],
       .obj [(cs "first", .str (cs "Roger"))]])])
     (cs "friends.#.first") 8
     [.obj [(cs "first", .str (cs "Dale"))], .obj [(cs "first", .str (cs "Roger"))]]
     rfl rfl (by decide) rfl⟩

/-! ## C7: the three-line diagnostic of `errorWithContext` -/

/-- Splitting never yields the empty list of pieces. -/
theorem splitOnChar_ne_nil (sep : Char) (s : List Char) : splitOnChar sep s ≠ [] := by
  induction s with
  | nil => simp [splitOnChar]
  | cons c rest ih =>
    cases h : splitOnChar sep rest with
    | nil => exact absurd h ih
    | cons s' ss => simp only [splitOnChar, h]; split <;> simp

/-- Splitting distributes over the first separator occurrence. -/
theorem splitOnChar_append_cons (sep : Char) (a b : List Char) (ha : sep ∉ a) :
    splitOnChar sep (a ++ sep :: b) = a :: splitOnChar sep b := by
  induction a with
  | nil =>
    cases hb : splitOnChar sep b with
    | nil => exact absurd hb (splitOnChar_ne_nil sep b)
    | cons s ss => simp [splitOnChar, hb]
  | cons c a' ih =>
    simp only [List.mem_cons, not_or] at ha
    obtain ⟨h1, h2⟩ := ha
    simp [splitOnChar, ih h2, Ne.symm h1]

/-- No piece of a split contains the separator. -/
theorem splitOnChar_pieces (sep : Char) (s : List Char) :
    ∀ t ∈ splitOnChar sep s, sep ∉ t := by
  induction s with
  | nil => simp [splitOnChar]
  | cons c rest ih =>
    intro t ht
    cases h : splitOnChar sep rest with
    | nil => exact absurd h (splitOnChar_ne_nil sep rest)
    | cons s' ss =>
      rw [splitOnChar, h] at ht
      by_cases hc : c = sep
      · simp only [hc, if_pos] at ht
        rcases List.mem_cons.mp ht with rfl | ht'
        · simp
        · exact ih t (h ▸ ht')
      · simp only [hc, if_neg, ite_false] at ht
        rcases List.mem_cons.mp ht with rfl | ht'
        · intro hmem
          rcases List.mem_cons.mp hmem with rfl | hmem'
          · exact hc rfl
          · exact ih s' (h ▸ List.mem_cons_self s' ss) hmem'
        · exact ih t (h ▸ List.mem_cons.mpr (Or.inr ht'))

/-- No digit character is a newline. -/
theorem digitChar_ne_nl (k : Nat) : digitChar k ≠ '\n' := by
  unfold digitChar
  split_ifs <;> decide

/-- The decimal renderer never emits a newline. -/
theorem natCharsGo_nl (fuel n : Nat) (acc : List Char) (h : '\n' ∉ acc) :
    '\n' ∉ natCharsGo fuel n acc := by
  induction fuel generalizing n acc with
  | zero => exact h
  | succ f ih =>
    by_cases hn : n < 10
    · simp only [natCharsGo, if_pos hn]
      intro hmem
      rcases List.mem_cons.mp hmem with h1 | h2
      · exact digitChar_ne_nl n h1.symm
      · exact h h2
    · simp only [natCharsGo, if_neg hn]
      apply ih
      intro hmem
      rcases List.mem_cons.mp hmem with h1 | h2
      · exact digitChar_ne_nl (n % 10) h1.symm
      · exact h h2

/-- See `natCharsGo_nl`. -/
theorem natChars_nl (n : Nat) : '\n' ∉ natChars n :=
  natCharsGo_nl (n + 1) n [] (by simp)

/-- C7: for every in-range token (line at least 1, at most the number of
input lines) and newline-free message, the formatted parse error splits at
newlines into exactly three lines: the message naming the 1-based line and
the 0-based column, the offending source line verbatim, and `pos` spaces
followed by a single caret. -/
theorem C7_error_three_lines (input : List Char) (tok : Tok) (msg : List Char) :
    1 ≤ tok.line → tok.line ≤ (splitOnChar '\n' input).length → '\n' ∉ msg →
    splitOnChar '\n' (errorWithContext input tok msg) =
      [msg ++ cs " at line " ++ natChars tok.line ++ cs ", position " ++ natChars tok.pos,
       (splitOnChar '\n' input).getD (tok.line - 1) [],
       List.replicate tok.pos ' ' ++ ['^']] := by
  intro h1 h2 hm
  have hline0 : ¬ tok.line = 0 := by omega
  have hnotlt : ¬ (splitOnChar '\n' input).length < tok.line := by omega
  unfold errorWithContext
  rw [if_neg hnotlt, if_neg hline0]
  have hassoc :
      msg ++ cs " at line " ++ natChars tok.line ++ cs ", position " ++ natChars tok.pos
          ++ ['\n'] ++ (splitOnChar '\n' input).getD (tok.line - 1) [] ++ ['\n']
          ++ List.replicate tok.pos ' ' ++ ['^'] =
        (msg ++ cs " at line " ++ natChars tok.line ++ cs ", position " ++ natChars tok.pos)
          ++ '\n' :: ((splitOnChar '\n' input).getD (tok.line - 1) []
            ++ '\n' :: (List.replicate tok.pos ' ' ++ ['^'])) := by
    simp [List.append_assoc]
  rw [hassoc]
  have hA : '\n' ∉ msg ++ cs " at line " ++ natChars tok.line ++ cs ", position "
      ++ natChars tok.pos := by
    intro hmem
    simp only [List.append_assoc, List.mem_append] at hmem
    rcases hmem with h | h | h | h | h
    · exact hm h
    · revert h; decide
    · exact natChars_nl tok.line h
    · revert h; decide
    · exact natChars_nl tok.pos h
  have hB : '\n' ∉ (splitOnChar '\n' input).getD (tok.line - 1) [] := by
    have hlt : tok.line - 1 < (splitOnChar '\n' input).length := by omega
    have hmem : (splitOnChar '\n' input).getD (tok.line - 1) [] ∈ splitOnChar '\n' input := by
      rw [List.getD_eq_getElem _ _ hlt]
      exact List.getElem_mem hlt
    exact splitOnChar_pieces '\n' input _ hmem
  have hC : '\n' ∉ List.replicate tok.pos ' ' ++ ['^'] := by
    intro hmem
    simp [List.mem_append, List.mem_replicate] at hmem
  rw [splitOnChar_append_cons '\n' _ _ hA, splitOnChar_append_cons '\n' _ _ hB,
    splitOnChar_not_mem '\n' _ hC]

/-- Witness for C7 at the repository's own parser-test failure: the
unterminated call `SET a, b = concatenate(name, surname`, failing token at
line 1 column 36. -/
theorem C7_error_three_lines_witness :
    splitOnChar '\n'
        (errorWithContext (cs "SET a, b = concatenate(name, surname")
          ⟨.eol, cs "\n", 1, 36⟩ (cs "unexpected token in arguments")) =
      [cs "unexpected token in arguments" ++ cs " at line " ++ natChars 1
         ++ cs ", position " ++ natChars 36,
       (splitOnChar '\n' (cs "SET a, b = concatenate(name, surname")).getD 0 [],
       List.replicate 36 ' ' ++ ['^']] :=
  C7_error_three_lines (cs "SET a, b = concatenate(name, surname")
    ⟨.eol, cs "\n", 1, 36⟩ (cs "unexpected token in arguments")
    (by decide) (by decide) (by decide)

/-! ## Parser structure lemmas (for C9 and C10) -/

/-- The variable loop only returns a suffix of its token input. -/
theorem parseVarsLoop_suffix (input : List Char) :
    ∀ (toks : List Tok) (acc vs : List (List Char)) (rest : List Tok),
      parseVarsLoop input acc toks = .ok (vs, rest) → rest <:+ toks
  | [], _acc, _vs, _rest, h => by simp [parseVarsLoop] at h
  | [t], acc, vs, rest, h => by
    unfold parseVarsLoop at h
    by_cases h1 : t.kind = .op ∧ t.lit = cs "="
    · rw [if_pos h1] at h
      simp only [Except.ok.injEq, Prod.mk.injEq] at h
      exact h.2 ▸ List.suffix_refl _
    · rw [if_neg h1] at h
      by_cases h2 : t.kind = .comma
      · rw [if_pos h2] at h; simp at h
      · rw [if_neg h2] at h; simp at h
  | t :: t2 :: ts2, acc, vs, rest, h => by
    unfold parseVarsLoop at h
    by_cases h1 : t.kind = .op ∧ t.lit = cs "="
    · rw [if_pos h1] at h
      simp only [Except.ok.injEq, Prod.mk.injEq] at h
      exact h.2 ▸ List.suffix_refl _
    · rw [if_neg h1] at h
      by_cases h2 : t.kind = .comma
      · rw [if_pos h2] at h
        have h' : (if t2.kind = TokKind.ident then parseVarsLoop input (acc ++ [t2.lit]) ts2
            else Except.error (errorWithContext input t2 (cs "expected variable name"))) =
            Except.ok (vs, rest) := h
        by_cases h3 : t2.kind = .ident
        · rw [if_pos h3] at h'
          exact (parseVarsLoop_suffix input ts2 (acc ++ [t2.lit]) vs rest h').trans
            ((List.suffix_cons t2 ts2).trans (List.suffix_cons t (t2 :: ts2)))
        · rw [if_neg h3] at h'; simp at h'
      · rw [if_neg h2] at h; simp at h

/-- The variable loop only extends its accumulator. -/
theorem parseVarsLoop_acc_ne (input : List Char) :
    ∀ (toks : List Tok) (acc vs : List (List Char)) (rest : List Tok),
      parseVarsLoop input acc toks = .ok (vs, rest) → acc ≠ [] → vs ≠ []
  | [], _acc, _vs, _rest, h => by simp [parseVarsLoop] at h
  | [t], acc, vs, rest, h => by
    intro hacc
    unfold parseVarsLoop at h
    by_cases h1 : t.kind = .op ∧ t.lit = cs "="
    · rw [if_pos h1] at h
      simp only [Except.ok.injEq, Prod.mk.injEq] at h
      exact h.1 ▸ hacc
    · rw [if_neg h1] at h
      by_cases h2 : t.kind = .comma
      · rw [if_pos h2] at h; simp at h
      · rw [if_neg h2] at h; simp at h
  | t :: t2 :: ts2, acc, vs, rest, h => by
    intro hacc
    unfold parseVarsLoop at h
    by_cases h1 : t.kind = .op ∧ t.lit = cs "="
    · rw [if_pos h1] at h
      simp only [Except.ok.injEq, Prod.mk.injEq] at h
      exact h.1 ▸ hacc
    · rw [if_neg h1] at h
      by_cases h2 : t.kind = .comma
      · rw [if_pos h2] at h
        have h' : (if t2.kind = TokKind.ident then parseVarsLoop input (acc ++ [t2.lit]) ts2
            else Except.error (errorWithContext input t2 (cs "expected variable name"))) =
            Except.ok (vs, rest) := h
        by_cases h3 : t2.kind = .ident
        · rw [if_pos h3] at h'
          exact parseVarsLoop_acc_ne input ts2 (acc ++ [t2.lit]) vs rest h' (by simp)
        · rw [if_neg h3] at h'; simp at h'
      · rw [if_neg h2] at h; simp at h

/-- `parseVariables` returns a non-empty variable list and a suffix. -/
theorem parseVariables_shape (input : List Char) (toks : List Tok)
    (vars : List (List Char)) (rest : List Tok)
    (h : parseVariables input toks = .ok (vars, rest)) :
    vars ≠ [] ∧ rest <:+ toks := by
  cases toks with
  | nil => simp [parseVariables, pnext, zeroTok] at h
  | cons t0 ts0 =>
    unfold parseVariables at h
    simp only [pnext] at h
    by_cases h1 : t0.kind = .ident
    · rw [if_pos h1] at h
      exact ⟨parseVarsLoop_acc_ne input ts0 [t0.lit] vars rest h (by simp),
        (parseVarsLoop_suffix input ts0 [t0.lit] vars rest h).trans
          (List.suffix_cons t0 ts0)⟩
    · rw [if_neg h1] at h; simp at h

/-- A successful `parseTransformer` consumed an identifier token that
passed the ASCII-letters-only check, and returned its literal. -/
theorem parseTransformer_shape (input : List Char) (toks : List Tok)
    (name : List Char) (args : List (List Char)) (rest : List Tok)
    (h : parseTransformer input toks = .ok ((name, args), rest)) :
    ∃ t ts', toks = t :: ts' ∧ t.kind = .ident ∧ name = t.lit ∧
      isTransformerOk t.lit = true := by
  cases toks with
  | nil => simp [parseTransformer, pnext, zeroTok] at h
  | cons t ts' =>
    refine ⟨t, ts', rfl, ?_⟩
    unfold parseTransformer at h
    simp only [pnext] at h
    by_cases h1 : t.kind = .ident
    · rw [if_neg (not_not_intro h1)] at h
      by_cases h2 : isTransformerOk t.lit
      · rw [if_neg (not_not_intro h2)] at h
        refine ⟨h1, ?_, h2⟩
        cases ts' with
        | nil =>
          simp [pnext, zeroTok] at h
        | cons lp rest2 =>
          simp only [pnext] at h
          by_cases h3 : lp.kind = .lparen
          · rw [if_neg (not_not_intro h3)] at h
            cases ha : parseArgsLoop input [] rest2 with
            | error e => rw [ha] at h; simp at h
            | ok pr =>
              obtain ⟨args0, rest3⟩ := pr
              rw [ha] at h
              simp only [Except.ok.injEq, Prod.mk.injEq] at h
              exact h.1.1.symm
          · rw [if_pos h3] at h; simp at h
      · rw [if_pos h2] at h; simp at h
    · rw [if_pos h1] at h; simp at h

/-- A successful `parseProgram` has a non-empty variable list, and its
transformer name is the literal of an identifier token of the stream that
passed the ASCII-letters-only check. -/
theorem parseProgram_shape (input : List Char) (toks : List Tok)
    (prog : Program) (rest : List Tok)
    (h : parseProgram input toks = .ok (prog, rest)) :
    prog.vars ≠ [] ∧
    ∃ t ∈ toks, t.kind = .ident ∧ prog.transformer = t.lit ∧
      isTransformerOk t.lit = true := by
  cases toks with
  | nil => simp [parseProgram, pnext, zeroTok] at h
  | cons t0 ts0 =>
    unfold parseProgram at h
    simp only [pnext] at h
    by_cases hset : t0.kind = .keyword ∧ t0.lit = cs "SET"
    · rw [if_pos hset] at h
      cases hv : parseVariables input ts0 with
      | error e => rw [hv] at h; simp at h
      | ok pr =>
        obtain ⟨vars, rest2⟩ := pr
        rw [hv] at h
        obtain ⟨hvne, hsuf⟩ := parseVariables_shape input ts0 vars rest2 hv
        cases rest2 with
        | nil => simp [pnext, zeroTok] at h
        | cons e0 rest3 =>
          simp only [pnext] at h
          by_cases heq : e0.kind = .op ∧ e0.lit = cs "="
          · rw [if_pos heq] at h
            cases ht : parseTransformer input rest3 with
            | error e => rw [ht] at h; simp at h
            | ok tr =>
              obtain ⟨⟨name, args⟩, rest4⟩ := tr
              rw [ht] at h
              simp only [Except.ok.injEq, Prod.mk.injEq] at h
              obtain ⟨hprog, _hrest⟩ := h
              obtain ⟨t, ts4, hrest3, hk, hname, hok⟩ :=
                parseTransformer_shape input rest3 name args rest4 ht
              have htmem : t ∈ ts0 := by
                apply hsuf.subset
                rw [hrest3]
                exact List.mem_cons.mpr (Or.inr (List.mem_cons_self t ts4))
              refine ⟨?_, t, List.mem_cons.mpr (Or.inr htmem), hk, ?_, hok⟩
              · rw [← hprog]; exact hvne
              · rw [← hprog]; exact hname
          · rw [if_neg heq] at h; simp at h
    · rw [if_neg hset] at h; simp at h

/-! ## The tokenizer emits no empty identifier literal (for C9) -/

/-- Every `Identifier` token of one line's scan carries a non-empty
literal: the identifier state is entered only on a letter, `_` or `#`,
which becomes the literal's first character. -/
theorem lexLineGo_ident_ne (lineNo : Nat) :
    ∀ (fuel : Nat) (rest : List Char) (pos : Nat),
      ∀ t ∈ (lexLineGo lineNo fuel rest pos).1, t.kind = .ident → t.lit ≠ []
  | 0, rest, pos => by simp [lexLineGo]
  | fuel + 1, [], pos => by
    intro t ht hk
    simp only [lexLineGo, List.mem_singleton] at ht
    rw [ht] at hk
    simp at hk
  | fuel + 1, c :: rest', pos => by
    intro t ht hk
    unfold lexLineGo at ht
    by_cases h1 : c = '\n'
    · rw [if_pos h1] at ht
      simp only [List.mem_singleton] at ht
      rw [ht] at hk
      simp at hk
    · rw [if_neg h1] at ht
      by_cases h2 : c = '\''
      · rw [if_pos h2] at ht
        cases hq : findQuote rest' with
        | none =>
          rw [hq] at ht
          simp only [List.mem_singleton] at ht
          rw [ht] at hk
          simp at hk
        | some j =>
          rw [hq] at ht
          have ht' : t ∈ (⟨TokKind.strTok, '\'' :: rest'.take j ++ ['\''],
              lineNo, pos⟩ : Tok) ::
              (lexLineGo lineNo fuel (rest'.drop (j + 1)) (pos + j + 2)).1 := ht
          rcases List.mem_cons.mp ht' with rfl | ht2
          · simp at hk
          · exact lexLineGo_ident_ne lineNo fuel (rest'.drop (j + 1)) (pos + j + 2) t ht2 hk
      · rw [if_neg h2] at ht
        by_cases h3 : isSpaceGo c
        · rw [if_pos h3] at ht
          exact lexLineGo_ident_ne lineNo fuel rest' (pos + 1) t ht hk
        · rw [if_neg h3] at ht
          by_cases h4 : isLetterGo c || c = '_' || c = '#'
          · rw [if_pos h4] at ht
            have ht' : t ∈ (⟨if isKeyword (c :: rest'.takeWhile isAllowedCharacter)
                then TokKind.keyword else TokKind.ident,
                c :: rest'.takeWhile isAllowedCharacter,
                lineNo, pos⟩ : Tok) ::
                (lexLineGo lineNo fuel (rest'.dropWhile isAllowedCharacter)
                  (pos + (c :: rest'.takeWhile isAllowedCharacter).length)).1 := ht
            rcases List.mem_cons.mp ht' with rfl | ht2
            · simp
            · exact lexLineGo_ident_ne lineNo fuel (rest'.dropWhile isAllowedCharacter)
                (pos + (c :: rest'.takeWhile isAllowedCharacter).length) t ht2 hk
          · rw [if_neg h4] at ht
            cases hs : symbolKind c with
            | none =>
              rw [hs] at ht
              simp only [List.mem_singleton] at ht
              rw [ht] at hk
              simp at hk
            | some sk =>
              rw [hs] at ht
              have ht' : t ∈ (⟨sk, [c], lineNo, pos⟩ : Tok) ::
                  (lexLineGo lineNo fuel rest' (pos + 1)).1 := ht
              rcases List.mem_cons.mp ht' with rfl | ht2
              · simp
              · exact lexLineGo_ident_ne lineNo fuel rest' (pos + 1) t ht2 hk

/-- The `run` loop preserves the non-empty-identifier property. -/
theorem runLexerGo_ident_ne :
    ∀ (ls : List (List Char)) (lineNo endPos : Nat),
      ∀ t ∈ runLexerGo ls lineNo endPos, t.kind = .ident → t.lit ≠ []
  | [], _lineNo, _endPos => by
    intro t ht hk
    simp only [runLexerGo, List.mem_singleton] at ht
    rw [ht] at hk
    simp at hk
  | l :: ls', lineNo, endPos => by
    intro t ht hk
    unfold runLexerGo at ht
    rcases hR : lexLine lineNo (dropCR l) with ⟨ts, e, pp⟩
    rw [hR] at ht
    rcases List.mem_append.mp ht with h | h
    · have := lexLineGo_ident_ne lineNo ((dropCR l ++ ['\n']).length + 1)
        (dropCR l ++ ['\n']) 0 t
      unfold lexLine at hR
      rw [hR] at this
      exact this h hk
    · exact runLexerGo_ident_ne ls' (if e then lineNo + 1 else lineNo) pp t h hk

/-- Every `Identifier` token the tokenizer emits has a non-empty literal. -/
theorem runLexer_ident_ne (input : List Char) :
    ∀ t ∈ runLexer input, t.kind = .ident → t.lit ≠ [] :=
  fun t ht hk => runLexerGo_ident_ne (scanLines input) 1 0 t ht hk

/-! ## C9: the transformer name must be ASCII letters only -/

/-- C9: over any tokenizer-shaped stream (identifier literals non-empty,
as the tokenizer guarantees), a successful parse yields a transformer name
that is non-empty and all ASCII letters (`^[A-Za-z]+$`); an
identifier-shaped name containing any other character — digits, `.`, `_`,
`#` — is rejected by `parseTransformer` with a syntax error; and the
tokenizer indeed never emits an empty identifier literal. -/
theorem C9_transformer_ascii_only :
    (∀ (input : List Char) (toks : List Tok) (prog : Program) (rest : List Tok),
      (∀ t ∈ toks, t.kind = .ident → t.lit ≠ []) →
      parseProgram input toks = .ok (prog, rest) →
      prog.transformer ≠ [] ∧ prog.transformer.all isAsciiAlpha = true) ∧
    (∀ (input : List Char) (t : Tok) (rest : List Tok),
      t.kind = .ident → isTransformerOk t.lit = false →
      parseTransformer input (t :: rest) =
        .error (errorWithContext input t
          (cs "expected transformer name to have only alphabets"))) ∧
    (∀ (input : List Char), ∀ t ∈ runLexer input, t.kind = .ident → t.lit ≠ []) := by
  refine ⟨?_, ?_, runLexer_ident_ne⟩
  · intro input toks prog rest hne h
    obtain ⟨_, t, htmem, hk, heq, hok⟩ := parseProgram_shape input toks prog rest h
    constructor
    · rw [heq]
      exact hne t htmem hk
    · rw [heq]
      exact hok
  · intro input t rest hk hbad
    unfold parseTransformer
    simp only [pnext]
    rw [if_neg (not_not_intro hk), if_pos (by simp [hbad])]

/-- Witness for C9: the stream of `SET a = t(b)` parses with transformer
name `t`, non-empty and all ASCII letters. -/
theorem C9_transformer_ascii_only_witness :
    parseProgram (cs "SET a = t(b)") (runLexer (cs "SET a = t(b)")) =
      .ok (⟨[cs "a"], cs "t", [cs "b"]⟩,
        [⟨.eol, cs "\n", 1, 12⟩, ⟨.eof, [], 2, 13⟩]) ∧
    ((cs "t") ≠ [] ∧ (cs "t").all isAsciiAlpha = true) :=
  ⟨rfl,
   C9_transformer_ascii_only.1 (cs "SET a = t(b)") (runLexer (cs "SET a = t(b)"))
     ⟨[cs "a"], cs "t", [cs "b"]⟩ [⟨.eol, cs "\n", 1, 12⟩, ⟨.eof, [], 2, 13⟩]
     (by decide) rfl⟩

/-! ## C10: parser-produced programs have non-empty variable lists -/

/-- The `RunAll` loop only accumulates programs with the invariant. -/
theorem runAllGo_vars_ne (input : List Char) :
    ∀ (fuel : Nat) (toks : List Tok) (acc progs : List Program) (rest : List Tok),
      (∀ p ∈ acc, p.vars ≠ []) →
      runAllGo input fuel toks acc = .ok (progs, rest) →
      ∀ p ∈ progs, p.vars ≠ []
  | 0, toks, acc, progs, rest => by
    intro _ h
    simp [runAllGo] at h
  | fuel + 1, toks, acc, progs, rest => by
    intro hacc h
    unfold runAllGo at h
    cases hp : parseProgram input toks with
    | error e => rw [hp] at h; simp at h
    | ok pr =>
      obtain ⟨program, rest1⟩ := pr
      rw [hp] at h
      have hprog := (parseProgram_shape input toks program rest1 hp).1
      have hacc2 : ∀ p ∈ acc ++ [program], p.vars ≠ [] := by
        intro p hmem
        rcases List.mem_append.mp hmem with h1 | h1
        · exact hacc p h1
        · rw [List.mem_singleton.mp h1]
          exact hprog
      have h' : (if (ppeek rest1).kind = TokKind.eol then
          (if (ppeek (rest1.drop 1)).kind = TokKind.eof then
            Except.ok (acc ++ [program], rest1.drop 1)
          else runAllGo input fuel (rest1.drop 1) (acc ++ [program]))
        else runAllGo input fuel rest1 (acc ++ [program])) = Except.ok (progs, rest) := h
      by_cases he : (ppeek rest1).kind = .eol
      · rw [if_pos he] at h'
        by_cases hf : (ppeek (rest1.drop 1)).kind = .eof
        · rw [if_pos hf] at h'
          simp only [Except.ok.injEq, Prod.mk.injEq] at h'
          exact fun p hm => hacc2 p (h'.1 ▸ hm)
        · rw [if_neg hf] at h'
          exact runAllGo_vars_ne input fuel (rest1.drop 1) (acc ++ [program]) progs rest
            hacc2 h'
      · rw [if_neg he] at h'
        exact runAllGo_vars_ne input fuel rest1 (acc ++ [program]) progs rest hacc2 h'

/-- C10: every program a successful `Run` (= `parseProgram`) or `RunAll`
returns has a non-empty variable list (`parseVariables` demands an
identifier before `=`), so `Execute`'s unguarded `Variables[0]` read in
the mode dispatch is in bounds on parser-produced programs: it reduces to
the first-variable test rather than the out-of-range panic. -/
theorem C10_parser_variables_nonempty :
    (∀ (input : List Char) (toks : List Tok) (prog : Program) (rest : List Tok),
      parseProgram input toks = .ok (prog, rest) → prog.vars ≠ []) ∧
    (∀ (input : List Char) (toks : List Tok) (progs : List Program),
      RunAll input toks = .ok progs → ∀ p ∈ progs, p.vars ≠ []) ∧
    (∀ (p : Program) (d : Value) (v0 : List Char) (vs : List (List Char)),
      p.vars = v0 :: vs →
      Execute p d = if v0.contains '#' then executeIteration p d
        else some (executeSet p d)) := by
  refine ⟨?_, ?_, Execute_dispatch⟩
  · intro input toks prog rest h
    exact (parseProgram_shape input toks prog rest h).1
  · intro input toks progs h
    unfold RunAll at h
    cases hr : runAllGo input (toks.length + 1) toks [] with
    | error e => rw [hr] at h; simp at h
    | ok pr =>
      obtain ⟨progs0, rest0⟩ := pr
      rw [hr] at h
      simp only [Except.ok.injEq] at h
      subst h
      exact runAllGo_vars_ne input (toks.length + 1) toks [] progs0 rest0 (by simp) hr

/-- Witness for C10 at the parsed script `SET a = t(b)`. -/
theorem C10_parser_variables_nonempty_witness :
    (⟨[cs "a"], cs "t", [cs "b"]⟩ : Program).vars ≠ [] ∧
    (∀ p ∈ [(⟨[cs "a"], cs "t", [cs "b"]⟩ : Program)], p.vars ≠ []) ∧
    Execute ⟨[cs "a"], cs "t", [cs "b"]⟩ (Value.obj []) =
      (if (cs "a").contains '#' then
        executeIteration ⟨[cs "a"], cs "t", [cs "b"]⟩ (Value.obj [])
      else some (executeSet ⟨[cs "a"], cs "t", [cs "b"]⟩ (Value.obj []))) :=
  ⟨C10_parser_variables_nonempty.1 (cs "SET a = t(b)") (runLexer (cs "SET a = t(b)"))
     ⟨[cs "a"], cs "t", [cs "b"]⟩ [⟨.eol, cs "\n", 1, 12⟩, ⟨.eof, [], 2, 13⟩] rfl,
   C10_parser_variables_nonempty.2.1 (cs "SET a = t(b)") (runLexer (cs "SET a = t(b)"))
     [⟨[cs "a"], cs "t", [cs "b"]⟩] rfl,
   C10_parser_variables_nonempty.2.2 ⟨[cs "a"], cs "t", [cs "b"]⟩ (Value.obj [])
     (cs "a") [] rfl⟩
end DTI
